import Mathlib

/-!
Verification of the client-portal dashboard logic (`src/ml-service/client-portal/app/page.tsx`
and the library files under `src/unnamed/`).

Shallow embedding conventions:
* JavaScript numbers are modelled as exact rationals (`ℚ`); the arithmetic the claims
  exercise (sorting, `Math.floor`, sums) is exact on every fixture considered here.
* JavaScript arrays become `List`s; `arr[i]` becomes `List.get?`/`List.getD`;
  `x ?? d` on an optional value becomes `Option.getD`.
* `[...arr].sort((a, b) => a - b)` becomes a sort by `≤` (the unique ascending
  reordering; `List.insertionSort` is used as the executable sort).
* A JavaScript `Map` (insertion-ordered, unique keys) becomes an association list
  in insertion order, with updates that keep the key order.
* React state updates become explicit state-passing on a record type; a `useEffect`
  that reshapes the matrix is applied at the point its dependencies change.
* `fetch` responses are modelled by their status code and body text; a thrown
  `Error` becomes `Except.error` carrying the message string.
-/

namespace ClientPortal

/-- The ascending numeric sort `[...arr].sort((a, b) => a - b)`. -/
def sortAsc (values : List ℚ) : List ℚ := values.insertionSort (· ≤ ·)

/-- The percentile helper `p(arr, q)` from `page.tsx` (lines 434-439, and identically lines 793-798):
`if (!arr.length) return 0; const s = [...arr].sort((a,b) => a-b);
const idx = Math.floor((s.length - 1) * q); return s[idx];`
(`s[idx]` at an out-of-range index is modelled by the `getD` default, which the
in-bounds result for `q ∈ [0,1]` shows is never used). -/
def percentile (values : List ℚ) (q : ℚ) : ℚ :=
  if values.length = 0 then 0
  else (sortAsc values).getD (Int.toNat ⌊(((sortAsc values).length : ℚ) - 1) * q⌋) 0

/-- One row of the `usage_logs` snapshot (`MetricRow` in `page.tsx`):
`{ created_at: string; latency_ms?: number | null; cost_usd?: number | null }`.
A missing or null field is `none`. -/
structure MetricRow where
  created_at : String
  latency_ms : Option ℚ
  cost_usd : Option ℚ
deriving DecidableEq, Repr

/-- The `DerivedMetrics` of the spec: the `{ p95All, total, totalCost }` triple computed
by the KPI `useMemo` in `page.tsx`. -/
structure DerivedMetrics where
  totalRequests : Nat
  p95LatencyMs : ℚ
  totalCostUsd : ℚ
deriving DecidableEq, Repr

/-- The KPI `useMemo` of `page.tsx` (lines 432-443):
`if (!metrics.length) return { p95All: 0, total: 0, totalCost: 0 };`
`p95All = p(metrics.map(r => Number(r.latency_ms ?? 0)), 0.95);`
`totalCost = metrics.reduce((s, r) => s + Number(r.cost_usd ?? 0), 0);`
`total = metrics.length`. -/
def aggregate (metrics : List MetricRow) : DerivedMetrics :=
  if metrics.length = 0 then ⟨0, 0, 0⟩
  else
    { totalRequests := metrics.length
      p95LatencyMs := percentile (metrics.map fun r => r.latency_ms.getD 0) (95/100)
      totalCostUsd := metrics.foldl (fun s r => s + r.cost_usd.getD 0) 0 }

/-- The fixture snapshot of spec §8:
`[{latency_ms:100}, {latency_ms:null}, {cost_usd:2.5}, {cost_usd:null}]`. -/
def fixtureRows : List MetricRow :=
  [⟨"", some 100, none⟩, ⟨"", none, none⟩, ⟨"", none, some (5/2)⟩, ⟨"", none, none⟩]

/-- White space as removed by `String.prototype.trim` (the ASCII cases; the
fixtures only use plain spaces). -/
def isSpaceChar (c : Char) : Bool :=
  c == ' ' || c == '\t' || c == '\n' || c == '\r' || c == '\x0b' || c == '\x0c'

/-- Leading-whitespace removal (the front half of `s.trim()`). -/
def trimStart (s : List Char) : List Char := s.dropWhile isSpaceChar

/-- Trailing-whitespace removal (the back half of `s.trim()`). -/
def trimEnd (s : List Char) : List Char := (s.reverse.dropWhile isSpaceChar).reverse

/-- JS `s.trim()`: removes whitespace from both ends. -/
def trimChars (s : List Char) : List Char := trimEnd (trimStart s)

/-- JS `text.split(/\r?\n/)` on the character sequence: a separator is either a bare
`\n` or a `\r\n` pair; a `\r` not followed by `\n` is ordinary content. -/
def splitLinesCRLF : List Char → List (List Char)
  | [] => [[]]
  | '\r' :: '\n' :: rest => [] :: splitLinesCRLF rest
  | '\n' :: rest => [] :: splitLinesCRLF rest
  | c :: rest =>
    match splitLinesCRLF rest with
    | [] => [[c]]
    | l :: ls => (c :: l) :: ls

/-- JS `text.split(/\r?\n/).filter(Boolean)` (in `part_005`:
`.filter((ln) => ln.length > 0)`): the lines of the blob with empty lines dropped. -/
def nonEmptyLines (text : String) : List (List Char) :=
  (splitLinesCRLF text.data).filter fun ln => decide (ln ≠ [])

/-- The `onCsvFile` preview construction (`page.tsx` lines 403-406, `part_005`
lines 228-231): `lines.slice(0, 26).map((ln) => ln.split(",").map((s) => s.trim()))`. -/
def csvPreviewOf (text : String) : List (List String) :=
  ((nonEmptyLines text).take 26).map fun ln =>
    (List.splitOn ',' ln).map fun f => String.mk (trimChars f)

/-- The header row the preview table renders: `csvPreview[0]`
(only rendered when the preview is nonempty; defaults to `[]`). -/
def csvHeadersOf (text : String) : List String := (csvPreviewOf text).headD []

/-- The data rows the preview table renders: `csvPreview.slice(1, 26)`. -/
def csvDataRowsOf (text : String) : List (List String) :=
  ((csvPreviewOf text).drop 1).take 25

/-- The `onChange` handler of the feature-columns input (`page.tsx` lines 562-569,
`part_005` lines 393-400):
`value.split(",").map((s) => s.trim()).filter(Boolean)`
(in `part_005`: `.filter((s) => s.length > 0)`). -/
def parseCols (value : String) : List String :=
  (((List.splitOn ',' value.data).map fun s => trimChars s).filter
    fun s => decide (s ≠ [])).map String.mk

/-- The reshape `useEffect` of `page.tsx` lines 24-26 (and identically lines 725-727):
`setInputs(Array.from({length: rows}, () => Array(featureCols.length).fill(0)))` —
a fresh all-zero `rows × featureCols.length` matrix, prior values discarded. -/
def reshapeZero (n m : Nat) : List (List ℚ) :=
  List.replicate n (List.replicate m 0)

/-- The reshape `useEffect` of `page.tsx` lines 325-331 (and `part_005` lines 149-152):
`Array.from({ length: rows }, (_, i) => Array.from({ length: featureCols.length },
(_, j) => prev[i]?.[j] ?? 0))` — preserve by `(row, col)` position, zero-fill new cells. -/
def reshapeKeep (n m : Nat) (prev : List (List ℚ)) : List (List ℚ) :=
  (List.range n).map fun i => (List.range m).map fun j =>
    (prev[i]?.bind fun r => r[j]?).getD 0

/-- The Batch Input Manager state: the `rows`, `featureCols` and `inputs` React
state of the page component. -/
structure BatchState where
  rowCount : Nat
  featureCols : List String
  inputs : List (List ℚ)
deriving DecidableEq, Repr

/-- Action `setRows(n)` followed by the preserve-by-position reshape effect
(the effect reruns because the `rows` dependency changed). -/
def setRowCountKeep (n : Nat) (st : BatchState) : BatchState :=
  { st with rowCount := n, inputs := reshapeKeep n st.featureCols.length st.inputs }

/-- Action `setFeatureCols(cols)` followed by the preserve-by-position reshape effect
(the effect reruns when `featureCols.length` changes; on a well-shaped matrix the
preserve-by-position reshape at unchanged dimensions is the identity). -/
def setColumnsKeep (cols : List String) (st : BatchState) : BatchState :=
  { st with featureCols := cols, inputs := reshapeKeep st.rowCount cols.length st.inputs }

/-- Action `setRows(n)` followed by the zero-fill reshape effect of lines 24-26. -/
def setRowCountZero (n : Nat) (st : BatchState) : BatchState :=
  { st with rowCount := n, inputs := reshapeZero n st.featureCols.length }

/-- Action `setFeatureCols(cols)` followed by the zero-fill reshape effect of lines 24-26. -/
def setColumnsZero (cols : List String) (st : BatchState) : BatchState :=
  { st with featureCols := cols, inputs := reshapeZero st.rowCount cols.length }

/-- Cell accessor used to state matrix properties: `mat[i]?.[j] ?? 0`. -/
def cellAt (mat : List (List ℚ)) (i j : Nat) : ℚ :=
  (mat[i]?.bind fun r => r[j]?).getD 0

/-- The page-level client state the predict actions touch. `netCalls` records the
endpoints of the network requests issued so far; `alerts` records the blocking
alerts shown so far. -/
structure AppState where
  token : Option String
  inputs : List (List ℚ)
  outputs : Option (List ℚ)
  csvResultUrl : Option String
  csvPreview : List (List String)
  alerts : List String
  netCalls : List String
deriving DecidableEq, Repr

/-- Handler `doPredict` (`page.tsx` lines 40-44 / 392-396): `if (!token) return alert(...)`;
otherwise POST `{ inputs }` to `/predict` and store `res.outputs`. The remote model
is the oracle `net`. -/
def doPredict (net : List (List ℚ) → List ℚ) (st : AppState) : AppState :=
  match st.token with
  | none => { st with alerts := st.alerts ++ ["Login first."] }
  | some _ =>
    { st with netCalls := st.netCalls ++ ["/predict"], outputs := some (net st.inputs) }

/-- Handler `onCsvFile` (`page.tsx` lines 398-407): `if (!token) return alert(...)`; otherwise
POST the file to `/predict_csv`, store an object URL for the returned blob (modelled
by the blob's text) and the 26-line preview. The remote service is the oracle `netCsv`. -/
def onCsvFile (netCsv : String → String) (file : String) (st : AppState) : AppState :=
  match st.token with
  | none => { st with alerts := st.alerts ++ ["Login first."] }
  | some _ =>
    { st with
      netCalls := st.netCalls ++ ["/predict_csv"]
      csvResultUrl := some (netCsv file)
      csvPreview := csvPreviewOf (netCsv file) }

/-- A `fetch` response as far as `api.ts` observes it: status code and body text. -/
structure HttpResponse where
  status : Nat
  bodyText : String
deriving DecidableEq, Repr

/-- Property `Response.ok` of the fetch API: status in the inclusive range 200-299. -/
def respOk (r : HttpResponse) : Bool :=
  decide (200 ≤ r.status ∧ r.status ≤ 299)

/-- Function `apiJson` (`part_006` lines 3-19):
`if (!res.ok) throw new Error(\x7b$\x7bres.status\x7d $\x7bawait res.text()\x7d\x7d); return res.json()`.
The JSON parse of the body is the oracle `parse`. -/
def apiJson {α : Type} (parse : String → α) (r : HttpResponse) : Except String α :=
  if respOk r then Except.ok (parse r.bodyText)
  else Except.error (toString r.status ++ " " ++ r.bodyText)

/-- Function `apiCsv` (`part_006` lines 21-31): same error policy, returns the body blob. -/
def apiCsv (r : HttpResponse) : Except String String :=
  if respOk r then Except.ok r.bodyText
  else Except.error (toString r.status ++ " " ++ r.bodyText)

/-- A cell of the rendered prediction-preview table: a number or a string
(the `(string | number)[][]` rows of the `Table` component). -/
inductive Cell where
  | num (v : ℚ)
  | str (s : String)
deriving DecidableEq, Repr

/-- The prediction-preview rows (`page.tsx` lines 615-623, `part_005` lines 454-462):
`inputs.map((row, idx) => [...row, outputs[idx] ?? ""])`. -/
def previewRows (inputs : List (List ℚ)) (outputs : List ℚ) : List (List Cell) :=
  inputs.mapIdx fun idx row =>
    row.map Cell.num ++ [match outputs[idx]? with
      | some v => Cell.num v
      | none => Cell.str ""]

/-- One step of the day-bucketing loop of `page.tsx` lines 783-791: push this
record's latency and cost onto the bucket of its day, creating the bucket at the
end if the day is new (a JS `Map` keeps insertion order of keys). -/
def addToDay (day : String) (lat cost : ℚ) :
    List (String × List ℚ × List ℚ) → List (String × List ℚ × List ℚ)
  | [] => [(day, [lat], [cost])]
  | e :: es =>
    if e.1 = day then (day, e.2.1 ++ [lat], e.2.2 ++ [cost]) :: es
    else e :: addToDay day lat cost es

/-- One iteration of the `for (const r of metrics)` loop building `byDay`. -/
def stepDay (dayOf : String → String) (acc : List (String × List ℚ × List ℚ))
    (r : MetricRow) : List (String × List ℚ × List ℚ) :=
  addToDay (dayOf r.created_at) (r.latency_ms.getD 0) (r.cost_usd.getD 0) acc

/-- The `byDay` map of `page.tsx` lines 783-791, folded over the records in order.
`dayOf` abstracts `new Date(r.created_at).toISOString().slice(0, 10)` (UTC day
truncation, performed by the JS Date library). -/
def byDay (dayOf : String → String) (metrics : List MetricRow) :
    List (String × List ℚ × List ℚ) :=
  metrics.foldl (stepDay dayOf) []

/-- Spec-side description of a day bucket's latency list: the latencies (missing
as 0) of the records falling on day `d`, in record order. -/
def dayLats (dayOf : String → String) (metrics : List MetricRow) (d : String) : List ℚ :=
  (metrics.filter fun r => decide (dayOf r.created_at = d)).map fun r => r.latency_ms.getD 0

/-- Spec-side description of a day bucket's cost list: the costs (missing as 0)
of the records falling on day `d`, in record order. -/
def dayCosts (dayOf : String → String) (metrics : List MetricRow) (d : String) : List ℚ :=
  (metrics.filter fun r => decide (dayOf r.created_at = d)).map fun r => r.cost_usd.getD 0

/-- The day list `const days = Array.from(byDay.keys()).sort()`: the distinct days in ascending
lexicographic order. -/
def dayKeys (dayOf : String → String) (metrics : List MetricRow) : List String :=
  ((byDay dayOf metrics).map Prod.fst).insertionSort (· ≤ ·)

/-- The `{ dailyReqs, dailyP95, dailyCost }` triple of the day-bucketed `useMemo`. -/
structure DailyAgg where
  dailyReqs : List (String × Nat)
  dailyP95 : List (String × ℚ)
  dailyCost : List (String × ℚ)
deriving DecidableEq, Repr

/-- The day-bucketed aggregation of `page.tsx` lines 779-805:
`dailyReqs = days.map(d => (d, byDay.get(d)!.lat.length))`;
`dailyP95 = days.map(d => (d, p(byDay.get(d)!.lat, 0.95)))`;
`dailyCost = days.map(d => (d, byDay.get(d)!.cost.reduce((a,b) => a+b, 0)))`;
empty lists when the snapshot is empty. `byDay.get(d)!` is modelled by `lookup`
with an (unreachable for `d ∈ days`) empty default. -/
def dailyAgg (dayOf : String → String) (metrics : List MetricRow) : DailyAgg :=
  if metrics.length = 0 then ⟨[], [], []⟩
  else
    { dailyReqs := (dayKeys dayOf metrics).map fun d =>
        (d, (((byDay dayOf metrics).lookup d).getD ([], [])).1.length)
      dailyP95 := (dayKeys dayOf metrics).map fun d =>
        (d, percentile (((byDay dayOf metrics).lookup d).getD ([], [])).1 (95/100))
      dailyCost := (dayKeys dayOf metrics).map fun d =>
        (d, (((byDay dayOf metrics).lookup d).getD ([], [])).2.foldl (fun a b => a + b) 0) }

end ClientPortal

namespace ClientPortal

theorem percentile_nil (q : ℚ) : percentile [] q = 0 := rfl

theorem sortAsc_perm (values : List ℚ) : (sortAsc values).Perm values :=
  List.perm_insertionSort _ values

theorem sortAsc_length (values : List ℚ) : (sortAsc values).length = values.length :=
  (sortAsc_perm values).length_eq

/-- The sorted list used by `percentile` is *the* ascending ordering of the input. -/
theorem sortAsc_eq_of_sorted (values s : List ℚ) (hperm : s.Perm values)
    (hsorted : s.Sorted (· ≤ ·)) : sortAsc values = s :=
  List.eq_of_perm_of_sorted ((sortAsc_perm values).trans hperm.symm)
    (List.sorted_insertionSort _ values) hsorted

/-- Key unfolding lemma: on a nonempty input, `percentile` returns the entry of the
ascending reordering at index `floor((n-1)*q)`. -/
theorem percentile_eq_sorted (values : List ℚ) (q : ℚ) (s : List ℚ) (hperm : s.Perm values)
    (hsorted : s.Sorted (· ≤ ·)) (hne : values ≠ []) :
    percentile values q = s.getD (Int.toNat ⌊((values.length : ℚ) - 1) * q⌋) 0 := by
  have hlen : ¬ values.length = 0 := by simpa using hne
  rw [percentile, if_neg hlen, sortAsc_eq_of_sorted values s hperm hsorted,
    hperm.length_eq]

/-- C2: `percentile` sorts ascending and returns the element at index
`floor((n-1)*q)` of the sorted list; it returns 0 on the empty list; and the
literal fixtures of spec §8 hold: `percentile([5], q) = 5` for every `q ∈ [0,1]`
and `percentile([1,2,3,4,5], 0.95) = 4`. -/
theorem C2_percentile_spec :
    (∀ (values : List ℚ) (q : ℚ) (s : List ℚ), s.Perm values → s.Sorted (· ≤ ·) →
      values ≠ [] →
      percentile values q = s.getD (Int.toNat ⌊((values.length : ℚ) - 1) * q⌋) 0)
    ∧ (∀ q : ℚ, percentile [] q = 0)
    ∧ (∀ q : ℚ, 0 ≤ q → q ≤ 1 → percentile [(5 : ℚ)] q = 5)
    ∧ percentile [1, 2, 3, 4, 5] (95/100) = 4 := by
  refine ⟨percentile_eq_sorted, fun _ => rfl, ?_, ?_⟩
  · intro q hq0 hq1
    rw [percentile_eq_sorted [(5 : ℚ)] q [(5 : ℚ)] (by decide) (by decide) (by decide)]
    have h0 : ⌊((([(5 : ℚ)]).length : ℚ) - 1) * q⌋ = 0 := by
      simp only [List.length_singleton, Nat.cast_one, sub_self, zero_mul, Int.floor_zero]
    rw [h0]
    rfl
  · rw [percentile_eq_sorted [1, 2, 3, 4, 5] (95/100) [1, 2, 3, 4, 5] (by decide) (by decide)
      (by decide)]
    norm_num
    decide

/-- Closed witness for `C2_percentile_spec`. -/
theorem C2_percentile_spec_witness :
    percentile [3, 1, 2] (1/2) = 2 ∧ percentile [(5 : ℚ)] (1/2) = 5 := by
  constructor
  · rw [C2_percentile_spec.1 [3, 1, 2] (1/2) [1, 2, 3] (by decide) (by decide) (by decide)]
    norm_num
  · exact C2_percentile_spec.2.2.1 (1/2) (by norm_num) (by norm_num)

/-- C9: for nonempty input and `q ∈ [0,1]` the index `floor((n-1)*q)` used by
`percentile` is strictly below the list length (the access is in bounds), and the
returned value is an element of the input list — never an interpolated value. -/
theorem C9_percentile_inBounds (values : List ℚ) (q : ℚ)
    (hne : values ≠ []) (_hq0 : 0 ≤ q) (hq1 : q ≤ 1) :
    Int.toNat ⌊((values.length : ℚ) - 1) * q⌋ < values.length
    ∧ percentile values q ∈ values := by
  have hlenpos : 0 < values.length := List.length_pos.mpr hne
  have hn1 : (0 : ℚ) ≤ (values.length : ℚ) - 1 := by
    have : (1 : ℚ) ≤ (values.length : ℚ) := by exact_mod_cast hlenpos
    linarith
  have hmul_le : ((values.length : ℚ) - 1) * q ≤ (values.length : ℚ) - 1 := by
    calc ((values.length : ℚ) - 1) * q ≤ ((values.length : ℚ) - 1) * 1 :=
          mul_le_mul_of_nonneg_left hq1 hn1
    _ = (values.length : ℚ) - 1 := mul_one _
  have hfloor_le : ⌊((values.length : ℚ) - 1) * q⌋ ≤ (values.length : ℤ) - 1 := by
    have h1 : ⌊((values.length : ℚ) - 1) * q⌋ ≤ ⌊(values.length : ℚ) - 1⌋ :=
      Int.floor_le_floor hmul_le
    have h2 : ⌊(values.length : ℚ) - 1⌋ = (values.length : ℤ) - 1 := by
      rw [show ((values.length : ℚ) - 1) = (((values.length : ℤ) - 1 : ℤ) : ℚ) by push_cast; ring]
      exact Int.floor_intCast _
    omega
  have hidx : Int.toNat ⌊((values.length : ℚ) - 1) * q⌋ < values.length := by omega
  refine ⟨hidx, ?_⟩
  have hlen : ¬ values.length = 0 := by simpa using hne
  rw [percentile, if_neg hlen]
  have hidx' : Int.toNat ⌊(((sortAsc values).length : ℚ) - 1) * q⌋ < (sortAsc values).length := by
    rw [sortAsc_length]; exact hidx
  rw [List.getD_eq_getElem _ _ hidx']
  exact (sortAsc_perm values).mem_iff.mp (List.getElem_mem _)

/-- Closed witness for `C9_percentile_inBounds`. -/
theorem C9_percentile_inBounds_witness :
    Int.toNat ⌊(((([(7 : ℚ), 4]).length : ℚ) - 1) * (3/4))⌋ < ([(7 : ℚ), 4]).length
    ∧ percentile [(7 : ℚ), 4] (3/4) ∈ [(7 : ℚ), 4] :=
  C9_percentile_inBounds [(7 : ℚ), 4] (3/4) (by decide) (by norm_num) (by norm_num)

/-- C3: `aggregate` returns the record count, the 0.95-percentile of the latencies
(missing treated as 0) and the sum of the costs (missing treated as 0); on the
fixture snapshot it yields `totalRequests = 4`, `p95LatencyMs = 0`,
`totalCostUsd = 2.5`. -/
theorem C3_aggregate_spec :
    (∀ metrics : List MetricRow,
      aggregate metrics =
        { totalRequests := metrics.length
          p95LatencyMs := percentile (metrics.map fun r => r.latency_ms.getD 0) (95/100)
          totalCostUsd := (metrics.map fun r => r.cost_usd.getD 0).sum })
    ∧ aggregate fixtureRows = ⟨4, 0, 5/2⟩ := by
  have hgen : ∀ metrics : List MetricRow,
      aggregate metrics =
        { totalRequests := metrics.length
          p95LatencyMs := percentile (metrics.map fun r => r.latency_ms.getD 0) (95/100)
          totalCostUsd := (metrics.map fun r => r.cost_usd.getD 0).sum } := by
    intro metrics
    rw [aggregate]
    by_cases h : metrics.length = 0
    · rw [if_pos h]
      rw [List.length_eq_zero] at h
      subst h
      rfl
    · rw [if_neg h]
      have hfold : metrics.foldl (fun s r => s + r.cost_usd.getD 0) 0
          = (metrics.map fun r => r.cost_usd.getD 0).sum := by
        rw [List.sum_eq_foldl, List.foldl_map]
      rw [hfold]
  refine ⟨hgen, ?_⟩
  rw [hgen fixtureRows]
  have hlat : (fixtureRows.map fun r => r.latency_ms.getD 0) = [100, 0, 0, 0] := rfl
  have hcost : (fixtureRows.map fun r => r.cost_usd.getD 0) = [0, 0, 5/2, 0] := rfl
  rw [hlat, hcost]
  have hp : percentile [100, 0, 0, 0] (95/100) = 0 := by
    rw [percentile_eq_sorted [100, 0, 0, 0] (95/100) [0, 0, 0, 100] (by decide)
      (by decide) (by decide)]
    norm_num
    decide
  rw [hp]
  norm_num [fixtureRows]

theorem dropWhile_idem (p : Char → Bool) (l : List Char) :
    List.dropWhile p (List.dropWhile p l) = List.dropWhile p l := by
  induction l with
  | nil => rfl
  | cons c cs ih =>
    rw [List.dropWhile_cons]
    split
    · exact ih
    · next h => rw [List.dropWhile_cons, if_neg h]

theorem trimEnd_idem (l : List Char) : trimEnd (trimEnd l) = trimEnd l := by
  simp [trimEnd, List.reverse_reverse, dropWhile_idem]

/-- The first character of a trimmed nonempty string is not whitespace. -/
theorem head_trimChars_not_space (l : List Char) (h : trimChars l ≠ []) :
    isSpaceChar ((trimChars l).head h) = false := by
  have hyne : (trimStart l).reverse.dropWhile isSpaceChar ≠ [] := by
    intro h0
    apply h
    show ((trimStart l).reverse.dropWhile isSpaceChar).reverse = []
    rw [h0]
    rfl
  have htne : trimStart l ≠ [] := by
    intro h0
    apply hyne
    rw [h0]
    rfl
  have hsplit : (trimStart l).reverse.takeWhile isSpaceChar
      ++ (trimStart l).reverse.dropWhile isSpaceChar = (trimStart l).reverse :=
    List.takeWhile_append_dropWhile _ _
  have hopt : (trimChars l).head? = (trimStart l).head? := by
    show ((trimStart l).reverse.dropWhile isSpaceChar).reverse.head? = _
    rw [List.head?_reverse, ← List.getLast?_append_of_ne_nil
      ((trimStart l).reverse.takeWhile isSpaceChar) hyne, hsplit, List.getLast?_reverse]
  have hsome : some ((trimChars l).head h) = some ((trimStart l).head htne) := by
    rw [← List.head?_eq_head h, ← List.head?_eq_head htne, hopt]
  have hhead : (trimChars l).head h = (trimStart l).head htne := by
    exact Option.some_injective _ hsome
  rw [hhead]
  exact List.head_dropWhile_not isSpaceChar l htne

theorem trimStart_trimChars (l : List Char) : trimStart (trimChars l) = trimChars l := by
  rcases hl : trimChars l with _ | ⟨c, cs⟩
  · rfl
  · have hne : trimChars l ≠ [] := by rw [hl]; exact List.cons_ne_nil _ _
    have hc : isSpaceChar c = false := by
      have hh := head_trimChars_not_space l hne
      simp only [hl, List.head_cons] at hh
      exact hh
    simp [trimStart, List.dropWhile_cons, hc]

/-- Trimming is idempotent: a trimmed string is unchanged by another trim. -/
theorem trimChars_idem (l : List Char) : trimChars (trimChars l) = trimChars l := by
  calc trimChars (trimChars l) = trimEnd (trimStart (trimChars l)) := rfl
  _ = trimEnd (trimChars l) := by rw [trimStart_trimChars l]
  _ = trimEnd (trimEnd (trimStart l)) := rfl
  _ = trimEnd (trimStart l) := trimEnd_idem _
  _ = trimChars l := rfl

/-- C5: the CSV preview helper splits on `\n`/`\r\n`, drops empty lines, splits each
line on commas and trims every field; the first preview row is the header row and at
most 25 further rows are shown; the spec §8 fixture holds, also with `\r\n` endings;
every exposed field is already trimmed. -/
theorem C5_csvPreview_spec :
    csvHeadersOf "a,b\n1,2\n3,4\n" = ["a", "b"]
    ∧ csvDataRowsOf "a,b\n1,2\n3,4\n" = [["1", "2"], ["3", "4"]]
    ∧ csvHeadersOf "a,b\r\n1,2\r\n3,4\r\n" = ["a", "b"]
    ∧ csvDataRowsOf "a,b\r\n1,2\r\n3,4\r\n" = [["1", "2"], ["3", "4"]]
    ∧ (∀ text : String, (csvDataRowsOf text).length ≤ 25)
    ∧ (∀ text : String, ∀ ln ∈ nonEmptyLines text, ln ≠ [])
    ∧ (∀ text : String, ∀ row ∈ csvPreviewOf text, ∀ fld ∈ row,
        String.mk (trimChars fld.data) = fld) := by
  refine ⟨by decide, by decide, by decide, by decide, ?_, ?_, ?_⟩
  · intro text
    exact (List.length_take_le _ _)
  · intro text ln hln
    have := (List.mem_filter.mp hln).2
    simpa using this
  · intro text row hrow fld hfld
    obtain ⟨ln, -, hrow⟩ := List.mem_map.mp hrow
    subst hrow
    obtain ⟨f, -, hfld⟩ := List.mem_map.mp hfld
    subst hfld
    show String.mk (trimChars (trimChars f)) = String.mk (trimChars f)
    rw [trimChars_idem]

/-- Closed witness for `C5_csvPreview_spec`. -/
theorem C5_csvPreview_spec_witness :
    (csvDataRowsOf "a,b\n1,2\n3,4\n").length ≤ 25
    ∧ String.mk (trimChars ("1".data)) = "1" :=
  ⟨C5_csvPreview_spec.2.2.2.2.1 "a,b\n1,2\n3,4\n",
   C5_csvPreview_spec.2.2.2.2.2.2 "a,b\n1,2\n3,4\n" ["1", "2"] (by decide) "1" (by decide)⟩

/-- C7: parsing the feature-columns input splits on commas, trims each piece and
drops pieces that are empty after trimming: every resulting name is nonempty,
already trimmed and contains a non-whitespace character, and the result is an
order-preserving sublist of the trimmed pieces; fixtures included. -/
theorem C7_parseCols_spec :
    (∀ value : String, ∀ name ∈ parseCols value,
        name.data ≠ [] ∧ trimChars name.data = name.data
        ∧ ∃ c ∈ name.data, isSpaceChar c = false)
    ∧ (∀ value : String,
        (parseCols value).Sublist
          ((List.splitOn ',' value.data).map fun s => String.mk (trimChars s)))
    ∧ parseCols " a , ,b " = ["a", "b"]
    ∧ parseCols "f1,f2,f3" = ["f1", "f2", "f3"] := by
  refine ⟨?_, ?_, by decide, by decide⟩
  · intro value name hname
    obtain ⟨s, hs, hname⟩ := List.mem_map.mp hname
    subst hname
    have hs1 := List.mem_filter.mp hs
    have hsne : s ≠ [] := by simpa using hs1.2
    obtain ⟨f, -, hf⟩ := List.mem_map.mp hs1.1
    subst hf
    refine ⟨hsne, ?_, ?_⟩
    · show trimChars (trimChars f) = trimChars f
      exact trimChars_idem f
    · refine ⟨(trimChars f).head hsne, List.head_mem hsne, ?_⟩
      exact head_trimChars_not_space f hsne
  · intro value
    have hmm : (List.splitOn ',' value.data).map (fun s => String.mk (trimChars s))
        = ((List.splitOn ',' value.data).map fun s => trimChars s).map String.mk := by
      rw [List.map_map]
      rfl
    rw [parseCols, hmm]
    exact (List.filter_sublist _).map _

/-- Closed witness for `C7_parseCols_spec`. -/
theorem C7_parseCols_spec_witness :
    ("a".data ≠ [] ∧ trimChars "a".data = "a".data
      ∧ ∃ c ∈ "a".data, isSpaceChar c = false)
    ∧ (parseCols " a , ,b ").Sublist
        ((List.splitOn ',' (" a , ,b ").data).map fun s => String.mk (trimChars s)) :=
  ⟨C7_parseCols_spec.1 " a , ,b " "a" (by decide), C7_parseCols_spec.2.1 " a , ,b "⟩

/-- C6: with no session token, `doPredict` and `onCsvFile` only append the blocking
alert: no network call is issued (`netCalls` unchanged) and `inputs`, `outputs`
and `csvResultUrl` keep their prior values. -/
theorem C6_unauthenticated_guard (net : List (List ℚ) → List ℚ)
    (netCsv : String → String) (file : String) (st : AppState)
    (h : st.token = none) :
    doPredict net st = { st with alerts := st.alerts ++ ["Login first."] }
    ∧ onCsvFile netCsv file st = { st with alerts := st.alerts ++ ["Login first."] } := by
  constructor
  · simp only [doPredict, h]
  · simp only [onCsvFile, h]

/-- Closed witness for `C6_unauthenticated_guard`. -/
theorem C6_unauthenticated_guard_witness :
    doPredict (fun _ => []) ⟨none, [[1]], none, none, [], [], []⟩
      = ⟨none, [[1]], none, none, [], ["Login first."], []⟩
    ∧ onCsvFile (fun _ => "") "batch.csv" ⟨none, [[1]], none, none, [], [], []⟩
      = ⟨none, [[1]], none, none, [], ["Login first."], []⟩ :=
  C6_unauthenticated_guard (fun _ => []) (fun _ => "") "batch.csv"
    ⟨none, [[1]], none, none, [], [], []⟩ rfl

/-- C8: `apiJson` and `apiCsv` fail exactly on a non-2xx status, with an error
message carrying the numeric status code followed by the body text; on a 2xx
status they return the parsed body (resp. the blob). -/
theorem C8_api_error_propagation {α : Type} (parse : String → α) (r : HttpResponse) :
    (¬ (200 ≤ r.status ∧ r.status ≤ 299) →
      apiJson parse r = Except.error (toString r.status ++ " " ++ r.bodyText)
      ∧ apiCsv r = Except.error (toString r.status ++ " " ++ r.bodyText))
    ∧ ((200 ≤ r.status ∧ r.status ≤ 299) →
      apiJson parse r = Except.ok (parse r.bodyText)
      ∧ apiCsv r = Except.ok r.bodyText) := by
  constructor
  · intro h
    have hb : respOk r = false := decide_eq_false h
    constructor <;> simp [apiJson, apiCsv, hb]
  · intro h
    have hb : respOk r = true := decide_eq_true h
    constructor <;> simp [apiJson, apiCsv, hb]

/-- Closed witness for `C8_api_error_propagation`. -/
theorem C8_api_error_propagation_witness :
    apiJson (fun s => s) ⟨404, "missing"⟩ = Except.error ("404" ++ " " ++ "missing")
    ∧ apiCsv ⟨200, "csv"⟩ = Except.ok "csv" :=
  ⟨((C8_api_error_propagation (fun s => s) ⟨404, "missing"⟩).1 (by decide)).1,
   ((C8_api_error_propagation (fun s => s) ⟨200, "csv"⟩).2 (by decide)).2⟩

/-- C10: storing prediction outputs never modifies the InputMatrix; the preview
table has exactly one row per input row; row `i` is input row `i` with
`outputs[i]` appended when present and `""` appended otherwise; outputs beyond
the input length are never consulted (truncating them changes nothing). -/
theorem C10_preview_alignment :
    (∀ (net : List (List ℚ) → List ℚ) (st : AppState),
        (doPredict net st).inputs = st.inputs)
    ∧ (∀ (inputs : List (List ℚ)) (outputs : List ℚ),
        (previewRows inputs outputs).length = inputs.length)
    ∧ (∀ (inputs : List (List ℚ)) (outputs : List ℚ) (i : Nat),
        (previewRows inputs outputs)[i]? = inputs[i]?.map fun row =>
          row.map Cell.num ++ [match outputs[i]? with
            | some v => Cell.num v
            | none => Cell.str ""])
    ∧ (∀ (inputs : List (List ℚ)) (outputs : List ℚ),
        previewRows inputs (outputs.take inputs.length) = previewRows inputs outputs) := by
  refine ⟨?_, ?_, ?_, ?_⟩
  · intro net st
    cases h : st.token <;> simp [doPredict, h]
  · intro inputs outputs
    exact List.length_mapIdx
  · intro inputs outputs i
    rw [previewRows, List.getElem?_mapIdx]
  · intro inputs outputs
    apply List.ext_getElem?
    intro i
    rw [previewRows, previewRows, List.getElem?_mapIdx, List.getElem?_mapIdx]
    cases h : inputs[i]? with
    | none => rfl
    | some row =>
      have hi : i < inputs.length := by
        by_contra hge
        rw [List.getElem?_eq_none (le_of_not_lt hge)] at h
        exact Option.noConfusion h
      simp only [Option.map_some', List.getElem?_take, if_pos hi]

/-- The length of a preserve-by-position reshape result. -/
theorem reshapeKeep_length (n m : Nat) (prev : List (List ℚ)) :
    (reshapeKeep n m prev).length = n := by
  simp [reshapeKeep]

/-- Every row of a preserve-by-position reshape has the requested width. -/
theorem reshapeKeep_row_length (n m : Nat) (prev : List (List ℚ)) :
    ∀ row ∈ reshapeKeep n m prev, row.length = m := by
  intro row hrow
  obtain ⟨i, -, rfl⟩ := List.mem_map.mp hrow
  simp

/-- Cell contents of a preserve-by-position reshape. -/
theorem cellAt_reshapeKeep (n m : Nat) (prev : List (List ℚ)) (i j : Nat) (hi : i < n) :
    cellAt (reshapeKeep n m prev) i j = if j < m then cellAt prev i j else 0 := by
  rw [cellAt, reshapeKeep, List.getElem?_map, List.getElem?_range hi, Option.map_some',
    Option.some_bind]
  by_cases hj : j < m
  · rw [List.getElem?_map, List.getElem?_range hj, if_pos hj, Option.map_some']
    rfl
  · rw [List.getElem?_eq_none (by simpa using le_of_not_lt hj), if_neg hj]
    rfl

/-- Out-of-range rows read as zero. -/
theorem cellAt_oob (prev : List (List ℚ)) (i j : Nat) (h : prev.length ≤ i) :
    cellAt prev i j = 0 := by
  rw [cellAt, List.getElem?_eq_none h]
  rfl

/-- C1 (amended): with the preserve-by-position reshape effect
(`page.tsx` lines 325-331), `setRowCount(n)` then `setColumns(cols)` yields an
`n × len(cols)` matrix in which every cell in range of the previous well-shaped
matrix keeps its prior value and every other cell is 0. With the zero-fill
reshape effect (`page.tsx` lines 24-26) the shape is the same but every cell is
0, so the claimed preservation fails there. -/
theorem C1_reshape_amended (st : BatchState) (n : Nat) (cols : List String)
    (hrows : st.inputs.length = st.rowCount)
    (_hwf : ∀ row ∈ st.inputs, row.length = st.featureCols.length) :
    ((setColumnsKeep cols (setRowCountKeep n st)).rowCount = n
      ∧ (setColumnsKeep cols (setRowCountKeep n st)).featureCols = cols
      ∧ (setColumnsKeep cols (setRowCountKeep n st)).inputs.length = n
      ∧ (∀ row ∈ (setColumnsKeep cols (setRowCountKeep n st)).inputs,
          row.length = cols.length)
      ∧ (∀ i j, i < n → j < cols.length →
          cellAt (setColumnsKeep cols (setRowCountKeep n st)).inputs i j
            = if i < st.rowCount ∧ j < st.featureCols.length
              then cellAt st.inputs i j else 0))
    ∧ (setColumnsZero cols (setRowCountZero n st)).inputs
        = List.replicate n (List.replicate cols.length 0) := by
  have hkeep : (setColumnsKeep cols (setRowCountKeep n st)).inputs
      = reshapeKeep n cols.length (reshapeKeep n st.featureCols.length st.inputs) := rfl
  refine ⟨⟨rfl, rfl, ?_, ?_, ?_⟩, ?_⟩
  · rw [hkeep, reshapeKeep_length]
  · rw [hkeep]
    exact reshapeKeep_row_length _ _ _
  · intro i j hi hj
    rw [hkeep, cellAt_reshapeKeep _ _ _ _ _ hi, if_pos hj,
      cellAt_reshapeKeep _ _ _ _ _ hi]
    by_cases hj0 : j < st.featureCols.length
    · rw [if_pos hj0]
      by_cases hi0 : i < st.rowCount
      · rw [if_pos ⟨hi0, hj0⟩]
      · rw [if_neg (fun hc => hi0 hc.1)]
        exact cellAt_oob st.inputs i j (by omega)
    · rw [if_neg hj0, if_neg (fun hc => hj0 hc.2)]
  · rfl

/-- C1 counterexample to the claim as stated: under the zero-fill reshape effect
(`page.tsx` lines 24-26), starting from the well-shaped 1×1 matrix `[[3]]`,
`setRowCount(2)` then `setColumns(["f1","f2"])` produces a 2×2 matrix whose cell
`(0,0)` — in range before both calls with value 3 — is now 0: the prior value is
not retained. -/
theorem C1_zero_reshape_counterexample :
    (BatchState.mk 1 ["f1"] [[3]]).inputs.length = 1
    ∧ cellAt (BatchState.mk 1 ["f1"] [[3]]).inputs 0 0 = 3
    ∧ (setColumnsZero ["f1", "f2"] (setRowCountZero 2 (BatchState.mk 1 ["f1"] [[3]]))).inputs
        = [[0, 0], [0, 0]]
    ∧ cellAt (setColumnsZero ["f1", "f2"]
        (setRowCountZero 2 (BatchState.mk 1 ["f1"] [[3]]))).inputs 0 0
      ≠ cellAt (BatchState.mk 1 ["f1"] [[3]]).inputs 0 0 := by
  refine ⟨rfl, by decide, by decide, by decide⟩

/-- Closed witness for `C1_reshape_amended`. -/
theorem C1_reshape_amended_witness :
    (setColumnsKeep ["f1", "f2"] (setRowCountKeep 2 (BatchState.mk 1 ["f1"] [[3]]))).inputs.length = 2
    ∧ cellAt (setColumnsKeep ["f1", "f2"]
        (setRowCountKeep 2 (BatchState.mk 1 ["f1"] [[3]]))).inputs 0 0
      = if 0 < 1 ∧ 0 < 1 then cellAt [[3]] 0 0 else 0 := by
  have h := C1_reshape_amended (BatchState.mk 1 ["f1"] [[3]]) 2 ["f1", "f2"]
    (by decide) (by decide)
  exact ⟨h.1.2.2.1, h.1.2.2.2.2 0 0 (by decide) (by decide)⟩

theorem lookup_addToDay (day : String) (lat cost : ℚ)
    (m : List (String × List ℚ × List ℚ)) (d : String) :
    (addToDay day lat cost m).lookup d =
      if d = day then
        match m.lookup d with
        | some (a, b) => some (a ++ [lat], b ++ [cost])
        | none => some ([lat], [cost])
      else m.lookup d := by
  induction m with
  | nil =>
    by_cases h : d = day
    · subst h
      simp [addToDay, List.lookup]
    · have hb : (d == day) = false := beq_eq_false_iff_ne.mpr h
      simp [addToDay, List.lookup, hb, h]
  | cons e es ih =>
    rcases e with ⟨k, a, b⟩
    by_cases hk : k = day
    · subst hk
      by_cases hd : d = k
      · subst hd
        simp [addToDay, List.lookup]
      · have hb : (d == k) = false := beq_eq_false_iff_ne.mpr hd
        simp [addToDay, List.lookup, hb, hd]
    · by_cases hd : d = k
      · subst hd
        have hd' : ¬ d = day := hk
        simp [addToDay, List.lookup, hk, hd']
      · have hb : (d == k) = false := beq_eq_false_iff_ne.mpr hd
        simp [addToDay, List.lookup, hk, hb, ih]

theorem mem_keys_addToDay (day : String) (lat cost : ℚ)
    (m : List (String × List ℚ × List ℚ)) (d : String) :
    d ∈ (addToDay day lat cost m).map Prod.fst ↔ d ∈ m.map Prod.fst ∨ d = day := by
  induction m with
  | nil => simp [addToDay]
  | cons e es ih =>
    rcases e with ⟨k, a, b⟩
    by_cases hk : k = day
    · subst hk
      simp [addToDay]
      tauto
    · simp only [addToDay, if_neg hk, List.map_cons, List.mem_cons, ih]
      tauto

theorem nodup_keys_addToDay (day : String) (lat cost : ℚ)
    (m : List (String × List ℚ × List ℚ)) (h : (m.map Prod.fst).Nodup) :
    ((addToDay day lat cost m).map Prod.fst).Nodup := by
  induction m with
  | nil => simp [addToDay]
  | cons e es ih =>
    simp only [List.map_cons, List.nodup_cons] at h
    by_cases hk : e.1 = day
    · simp only [addToDay, if_pos hk, List.map_cons, List.nodup_cons]
      exact ⟨hk ▸ h.1, h.2⟩
    · simp only [addToDay, if_neg hk, List.map_cons, List.nodup_cons]
      refine ⟨?_, ih h.2⟩
      intro hmem
      rcases (mem_keys_addToDay day lat cost es e.1).mp hmem with hm | hd
      · exact h.1 hm
      · exact hk hd

theorem lookup_foldl_stepDay (dayOf : String → String) (l : List MetricRow)
    (acc : List (String × List ℚ × List ℚ)) (d : String) :
    (l.foldl (stepDay dayOf) acc).lookup d =
      match acc.lookup d with
      | some (a, b) => some (a ++ dayLats dayOf l d, b ++ dayCosts dayOf l d)
      | none =>
        if ∃ r ∈ l, dayOf r.created_at = d
        then some (dayLats dayOf l d, dayCosts dayOf l d) else none := by
  induction l generalizing acc with
  | nil =>
    cases h : acc.lookup d with
    | none => simp [h]
    | some p => rcases p with ⟨a, b⟩; simp [h, dayLats, dayCosts]
  | cons r l ih =>
    rw [List.foldl_cons, ih]
    have hstep : (stepDay dayOf acc r).lookup d =
        if d = dayOf r.created_at then
          match acc.lookup d with
          | some (a, b) => some (a ++ [r.latency_ms.getD 0], b ++ [r.cost_usd.getD 0])
          | none => some ([r.latency_ms.getD 0], [r.cost_usd.getD 0])
        else acc.lookup d :=
      lookup_addToDay (dayOf r.created_at) (r.latency_ms.getD 0) (r.cost_usd.getD 0) acc d
    by_cases hd : dayOf r.created_at = d
    · have hd' : d = dayOf r.created_at := hd.symm
      rw [hstep, if_pos hd']
      have hlat : dayLats dayOf (r :: l) d = r.latency_ms.getD 0 :: dayLats dayOf l d := by
        simp [dayLats, List.filter_cons, hd]
      have hcost : dayCosts dayOf (r :: l) d = r.cost_usd.getD 0 :: dayCosts dayOf l d := by
        simp [dayCosts, List.filter_cons, hd]
      cases h : acc.lookup d with
      | none =>
        simp [h, hlat, hcost]
        exact Or.inl hd
      | some p =>
        rcases p with ⟨a, b⟩
        simp [h, hlat, hcost]
    · have hd' : ¬ d = dayOf r.created_at := fun hc => hd hc.symm
      rw [hstep, if_neg hd']
      have hlat : dayLats dayOf (r :: l) d = dayLats dayOf l d := by
        simp [dayLats, List.filter_cons, hd]
      have hcost : dayCosts dayOf (r :: l) d = dayCosts dayOf l d := by
        simp [dayCosts, List.filter_cons, hd]
      have hex : (∃ r' ∈ r :: l, dayOf r'.created_at = d) ↔ ∃ r' ∈ l, dayOf r'.created_at = d := by
        simp only [List.mem_cons]
        constructor
        · rintro ⟨r', hr', he⟩
          rcases hr' with rfl | hr'
          · exact absurd he hd
          · exact ⟨r', hr', he⟩
        · rintro ⟨r', hr', he⟩
          exact ⟨r', Or.inr hr', he⟩
      rw [hlat, hcost]
      cases h : acc.lookup d with
      | none => simp only [h]; rw [if_congr hex rfl rfl]
      | some p => rfl

theorem mem_keys_foldl_stepDay (dayOf : String → String) (l : List MetricRow)
    (acc : List (String × List ℚ × List ℚ)) (d : String) :
    d ∈ (l.foldl (stepDay dayOf) acc).map Prod.fst
      ↔ d ∈ acc.map Prod.fst ∨ ∃ r ∈ l, dayOf r.created_at = d := by
  induction l generalizing acc with
  | nil => simp
  | cons r l ih =>
    rw [List.foldl_cons, ih]
    rw [show stepDay dayOf acc r
      = addToDay (dayOf r.created_at) (r.latency_ms.getD 0) (r.cost_usd.getD 0) acc from rfl]
    rw [mem_keys_addToDay]
    simp only [List.mem_cons]
    constructor
    · rintro (⟨hm | hd⟩ | ⟨r', hr', he⟩)
      · exact Or.inl hm
      · exact Or.inr ⟨r, Or.inl rfl, hd.symm⟩
      · exact Or.inr ⟨r', Or.inr hr', he⟩
    · rintro (hm | ⟨r', hr', he⟩)
      · exact Or.inl (Or.inl hm)
      · rcases hr' with rfl | hr'
        · exact Or.inl (Or.inr he.symm)
        · exact Or.inr ⟨r', hr', he⟩

theorem nodup_keys_foldl_stepDay (dayOf : String → String) (l : List MetricRow)
    (acc : List (String × List ℚ × List ℚ)) (h : (acc.map Prod.fst).Nodup) :
    ((l.foldl (stepDay dayOf) acc).map Prod.fst).Nodup := by
  induction l generalizing acc with
  | nil => exact h
  | cons r l ih =>
    rw [List.foldl_cons]
    exact ih _ (nodup_keys_addToDay _ _ _ _ h)

theorem lookup_byDay (dayOf : String → String) (metrics : List MetricRow) (d : String)
    (h : ∃ r ∈ metrics, dayOf r.created_at = d) :
    (byDay dayOf metrics).lookup d
      = some (dayLats dayOf metrics d, dayCosts dayOf metrics d) := by
  rw [byDay, lookup_foldl_stepDay]
  simp only [List.lookup]
  rw [if_pos h]

theorem mem_dayKeys (dayOf : String → String) (metrics : List MetricRow) (d : String) :
    d ∈ dayKeys dayOf metrics ↔ ∃ r ∈ metrics, dayOf r.created_at = d := by
  rw [dayKeys, (List.perm_insertionSort _ _).mem_iff, byDay, mem_keys_foldl_stepDay]
  simp

/-- C4: the day-bucketed aggregation groups records by `dayOf created_at`: the
day-key list is sorted ascending without duplicates and contains exactly the days
occurring in the snapshot, and for each day the triple carries that day's record
count, the 0.95-percentile of that day's latencies (missing as 0) and the sum of
that day's costs (missing as 0). -/
theorem C4_daily_buckets (dayOf : String → String) (metrics : List MetricRow)
    (hne : metrics ≠ []) :
    List.Sorted (· ≤ ·) (dayKeys dayOf metrics)
    ∧ (dayKeys dayOf metrics).Nodup
    ∧ (∀ d, d ∈ dayKeys dayOf metrics ↔ ∃ r ∈ metrics, dayOf r.created_at = d)
    ∧ (dailyAgg dayOf metrics).dailyReqs = (dayKeys dayOf metrics).map (fun d =>
        (d, (metrics.filter fun r => decide (dayOf r.created_at = d)).length))
    ∧ (dailyAgg dayOf metrics).dailyP95 = (dayKeys dayOf metrics).map (fun d =>
        (d, percentile (dayLats dayOf metrics d) (95/100)))
    ∧ (dailyAgg dayOf metrics).dailyCost = (dayKeys dayOf metrics).map (fun d =>
        (d, (dayCosts dayOf metrics d).sum)) := by
  have hlen : ¬ metrics.length = 0 := by simpa using hne
  have hsorted : List.Sorted (· ≤ ·) (dayKeys dayOf metrics) :=
    List.sorted_insertionSort _ _
  have hnodup : (dayKeys dayOf metrics).Nodup := by
    rw [dayKeys, (List.perm_insertionSort _ _).nodup_iff, byDay]
    exact nodup_keys_foldl_stepDay dayOf metrics [] (by simp)
  have hlook : ∀ d ∈ dayKeys dayOf metrics,
      (byDay dayOf metrics).lookup d
        = some (dayLats dayOf metrics d, dayCosts dayOf metrics d) := by
    intro d hd
    exact lookup_byDay dayOf metrics d ((mem_dayKeys dayOf metrics d).mp hd)
  refine ⟨hsorted, hnodup, mem_dayKeys dayOf metrics, ?_, ?_, ?_⟩
  · rw [dailyAgg, if_neg hlen]
    apply List.map_congr_left
    intro d hd
    rw [hlook d hd]
    simp [dayLats]
  · rw [dailyAgg, if_neg hlen]
    apply List.map_congr_left
    intro d hd
    rw [hlook d hd]
    rfl
  · rw [dailyAgg, if_neg hlen]
    apply List.map_congr_left
    intro d hd
    rw [hlook d hd]
    simp [List.sum_eq_foldl]

/-- Closed witness for `C4_daily_buckets`. -/
theorem C4_daily_buckets_witness :
    List.Sorted (· ≤ ·)
      (dayKeys (fun s => s)
        [⟨"2024-01-02", some 10, some 1⟩, ⟨"2024-01-01", some 20, none⟩,
         ⟨"2024-01-02", none, some 3⟩])
    ∧ (dailyAgg (fun s => s)
        [⟨"2024-01-02", some 10, some 1⟩, ⟨"2024-01-01", some 20, none⟩,
         ⟨"2024-01-02", none, some 3⟩]).dailyReqs
      = (dayKeys (fun s => s)
        [⟨"2024-01-02", some 10, some 1⟩, ⟨"2024-01-01", some 20, none⟩,
         ⟨"2024-01-02", none, some 3⟩]).map (fun d =>
        (d, (([⟨"2024-01-02", some 10, some 1⟩, ⟨"2024-01-01", some 20, none⟩,
          ⟨"2024-01-02", none, some 3⟩] : List MetricRow).filter
            fun r => decide ((fun s : String => s) r.created_at = d)).length)) := by
  have h := C4_daily_buckets (fun s => s)
    [⟨"2024-01-02", some 10, some 1⟩, ⟨"2024-01-01", some 20, none⟩,
     ⟨"2024-01-02", none, some 3⟩] (List.cons_ne_nil _ _)
  exact ⟨h.1, h.2.2.2.1⟩

end ClientPortal
